import Mathlib

/-!
Shallow embedding of the profile-section extractor, heuristic relevance
scorer and achievement extractor of `app.py` (functions
`extract_profile_sections`, `analyze_experience`, `extract_achievements`),
together with theorems settling the specification claims about them.

Strings are modelled by Lean `String`; the Python primitives
`str.strip`, `str.lower`, `in` (substring test), `len`, `str.split`
are modelled by executable functions over the underlying character
lists, matching Python semantics for the ASCII texts involved.
-/

/-- Python `str.strip` whitespace test (space, tab, CR, LF). -/
def isWS (c : Char) : Bool :=
  c = ' ' || c = '\t' || c = '\r' || c = '\n'

/-- Characters of a string. -/
def chars (s : String) : List Char := s.data

/-- Build a string back from characters. -/
def ofChars (l : List Char) : String := ⟨l⟩

/-- Model of Python `str.strip()`: drop leading and trailing whitespace. -/
def pyStrip (s : String) : String :=
  ofChars ((((chars s).dropWhile isWS).reverse.dropWhile isWS).reverse)

/-- ASCII lower-casing of one character, as Python `str.lower` does on ASCII. -/
def lowerChar (c : Char) : Char :=
  if 65 ≤ c.toNat ∧ c.toNat ≤ 90 then Char.ofNat (c.toNat + 32) else c

/-- Model of Python `str.lower()`. -/
def pyLower (s : String) : String := ofChars ((chars s).map lowerChar)

/-- Model of Python `len`. -/
def pyLen (s : String) : Nat := (chars s).length

/-- `l₂` starts with `l₁`. -/
def startsWithChars : List Char → List Char → Bool
  | [], _ => true
  | _ :: _, [] => false
  | p :: ps, c :: cs => p = c && startsWithChars ps cs

/-- `pat` occurs somewhere in `s`. -/
def hasInfixChars : List Char → List Char → Bool
  | [], pat => pat.isEmpty
  | c :: rest, pat => startsWithChars pat (c :: rest) || hasInfixChars rest pat

/-- Model of Python `pat in s` substring membership. -/
def strContains (s pat : String) : Bool := hasInfixChars (chars s) (chars pat)

/-- Model of Python `s.split('\n')`. -/
def splitNLChars : List Char → List (List Char)
  | [] => [[]]
  | c :: rest =>
    if c = '\n' then [] :: splitNLChars rest
    else
      match splitNLChars rest with
      | h :: t => (c :: h) :: t
      | [] => [[c]]

/-- Model of Python `profile_text.split('\n')`. -/
def splitNL (s : String) : List String := (splitNLChars (chars s)).map ofChars

/-- Model of Python `exp.split('. ')` (leftmost, non-overlapping). -/
def splitDotSpaceChars : List Char → List (List Char)
  | [] => [[]]
  | '.' :: ' ' :: rest => [] :: splitDotSpaceChars rest
  | c :: rest =>
    match splitDotSpaceChars rest with
    | h :: t => (c :: h) :: t
    | [] => [[c]]

/-- Model of Python `exp.split('. ')` on strings. -/
def splitPoints (s : String) : List String :=
  (splitDotSpaceChars (chars s)).map ofChars

/-- The section labels of `extract_profile_sections`. -/
inductive SectionLabel where
  | experience
  | education
  | skills
  | summary
  | achievements
  | certifications
deriving DecidableEq, Repr

/-- The sections dictionary built by `extract_profile_sections`:
list-valued buckets and a string-valued summary. -/
structure Sections where
  experience : List String
  education : List String
  skills : List String
  summary : String
  achievements : List String
  certifications : List String
deriving DecidableEq, Repr

/-- The initial `sections` dictionary of `extract_profile_sections`. -/
def initSections : Sections :=
  { experience := [], education := [], skills := [], summary := ""
    achievements := [], certifications := [] }

/-- The `if/elif` keyword chain of `extract_profile_sections` on a stripped
line: the section label the line selects as a header, if any. -/
def headerLabel (line : String) : Option SectionLabel :=
  let lower := pyLower line
  if (strContains lower "experience" || strContains lower "work history")
      && decide (pyLen line < 30) then some .experience
  else if strContains lower "education" && decide (pyLen line < 30) then
    some .education
  else if (strContains lower "skills" || strContains lower "expertise")
      && decide (pyLen line < 30) then some .skills
  else if (strContains lower "summary" || strContains lower "about")
      && decide (pyLen line < 30) then some .summary
  else if (strContains lower "achievement" || strContains lower "accomplishment")
      && decide (pyLen line < 30) then some .achievements
  else if (strContains lower "certification" || strContains lower "license")
      && decide (pyLen line < 30) then some .certifications
  else none

/-- A stripped line is a header line when the keyword chain fires. -/
def isHeader (line : String) : Bool := (headerLabel line).isSome

/-- Storing one content line into the active section
(`sections[current_section].append(line)`, or for summary
`sections['summary'] += line + ' '`). -/
def storeLine (s : Sections) (lbl : SectionLabel) (line : String) : Sections :=
  match lbl with
  | .experience => { s with experience := s.experience ++ [line] }
  | .education => { s with education := s.education ++ [line] }
  | .skills => { s with skills := s.skills ++ [line] }
  | .summary => { s with summary := s.summary ++ line ++ " " }
  | .achievements => { s with achievements := s.achievements ++ [line] }
  | .certifications => { s with certifications := s.certifications ++ [line] }

/-- The line scan loop of `extract_profile_sections`. -/
def scanLines : List String → Option SectionLabel → Sections → Sections
  | [], _, s => s
  | l :: rest, cur, s =>
    let line := pyStrip l
    if line = "" then scanLines rest cur s
    else
      match headerLabel line with
      | some lbl => scanLines rest (some lbl) s
      | none =>
        match cur with
        | some lbl => scanLines rest cur (storeLine s lbl line)
        | none => scanLines rest cur s

/-- `extract_profile_sections` from `app.py`. -/
def extract_profile_sections (profile_text : String) : Sections :=
  scanLines (splitNL profile_text) none initSections

/-- The `relevant_keywords` table of `analyze_experience`, looked up by the
first role-family name occurring in the lower-cased target position. -/
def keywordsFor (target_position : String) : List String :=
  if strContains (pyLower target_position) "developer" then
    ["coding", "programming", "software", "development", "engineering"]
  else if strContains (pyLower target_position) "manager" then
    ["lead", "managing", "leadership", "team", "strategy"]
  else if strContains (pyLower target_position) "analyst" then
    ["analysis", "data", "research", "reporting", "metrics"]
  else []

/-- `sum(1 for keyword in keywords if keyword in exp.lower())`. -/
def matchCount (keywords : List String) (exp : String) : Nat :=
  (keywords.filter (fun k => strContains (pyLower exp) k)).length

/-- One entry of the result list of `analyze_experience`. -/
structure RelevanceResult where
  relevance : Nat
  matching_points : List String
deriving DecidableEq, Repr

/-- The loop body of `analyze_experience` for one experience entry. -/
def analyzeOne (keywords : List String) (exp : String) : RelevanceResult :=
  let pts := (splitPoints exp).filter
    (fun point => keywords.any (fun k => strContains (pyLower point) k))
  { relevance := min (matchCount keywords exp * 20 + 40) 100
    matching_points := if pts = [] then [exp] else pts }

/-- `analyze_experience` from `app.py`. -/
def analyze_experience (experience : List String) (target_position : String) :
    List RelevanceResult :=
  (experience.take 3).map (analyzeOne (keywordsFor target_position))

/-- `re.search` of the pattern `\d+%` succeeds on a character list
exactly when some digit is immediately followed by a percent sign. -/
def digitPercentHit : List Char → Bool
  | [] => false
  | [_] => false
  | c :: d :: rest => (c.isDigit && d = '%') || digitPercentHit (d :: rest)

/-- `re.search` of the pattern `\$\d+` succeeds on a character list
exactly when a dollar sign is immediately followed by a digit. -/
def dollarDigitHit : List Char → Bool
  | [] => false
  | [_] => false
  | c :: d :: rest => (c = '$' && d.isDigit) || dollarDigitHit (d :: rest)

/-- The verb indicators of `achievement_indicators`. -/
def achievementVerbs : List String :=
  ["increased", "decreased", "improved", "launched", "led",
   "managed", "created", "developed"]

/-- `any(re.search(indicator, exp.lower()) for indicator in
achievement_indicators)`. -/
def achievementHit (exp : String) : Bool :=
  let lower := pyLower exp
  digitPercentHit (chars lower) || dollarDigitHit (chars lower) ||
    achievementVerbs.any (fun v => strContains lower v)

/-- `extract_achievements` from `app.py`. -/
def extract_achievements (experience : List String) : List String :=
  (experience.filter achievementHit).take 3

/-- Trace of the scan loop: which label each stored content line is
assigned to, in input order. -/
def scanAssign : List String → Option SectionLabel → List (SectionLabel × String)
  | [], _ => []
  | l :: rest, cur =>
    let line := pyStrip l
    if line = "" then scanAssign rest cur
    else
      match headerLabel line with
      | some lbl => scanAssign rest (some lbl)
      | none =>
        match cur with
        | some lbl => (lbl, line) :: scanAssign rest cur
        | none => scanAssign rest cur

/-- The lines a trace assigns to one label. -/
def assigned (lbl : SectionLabel) (a : List (SectionLabel × String)) :
    List String :=
  (a.filter (fun p => decide (p.1 = lbl))).map Prod.snd

/-- Concatenation of the summary lines, each with a trailing space. -/
def sumJoin : List String → String
  | [] => ""
  | x :: xs => x ++ " " ++ sumJoin xs

/-- The non-empty stripped lines that are not header lines. -/
def linesContent (lines : List String) : List String :=
  (lines.map pyStrip).filter (fun l => decide (l ≠ "") && !isHeader l)

/-- The non-empty stripped non-header lines of an input text. -/
def contentLines (t : String) : List String := linesContent (splitNL t)

theorem scanLines_eq (lines : List String) (cur : Option SectionLabel)
    (s : Sections) :
    scanLines lines cur s =
      { experience := s.experience ++ assigned .experience (scanAssign lines cur)
        education := s.education ++ assigned .education (scanAssign lines cur)
        skills := s.skills ++ assigned .skills (scanAssign lines cur)
        summary := s.summary ++ sumJoin (assigned .summary (scanAssign lines cur))
        achievements :=
          s.achievements ++ assigned .achievements (scanAssign lines cur)
        certifications :=
          s.certifications ++ assigned .certifications (scanAssign lines cur) } := by
  induction lines generalizing cur s with
  | nil => simp [scanLines, scanAssign, assigned, sumJoin]
  | cons l rest ih =>
    by_cases h : pyStrip l = ""
    · simp [scanLines, scanAssign, h, ih]
    · simp only [scanLines, scanAssign, if_neg h]
      cases hH : headerLabel (pyStrip l) with
      | some lbl => exact ih (some lbl) s
      | none =>
        cases cur with
        | none => exact ih none s
        | some lbl =>
          refine (ih (some lbl) (storeLine s lbl (pyStrip l))).trans ?_
          cases lbl <;>
            simp [storeLine, assigned, sumJoin, List.filter_cons,
              List.append_assoc, String.append_assoc]

theorem linesContent_cons (l : String) (rest : List String) :
    linesContent (l :: rest) =
      if pyStrip l = "" ∨ isHeader (pyStrip l) = true then linesContent rest
      else pyStrip l :: linesContent rest := by
  by_cases h1 : pyStrip l = "" <;> by_cases h2 : isHeader (pyStrip l) = true <;>
    simp [linesContent, List.filter_cons, h1, h2]

open List in
theorem scanAssign_snd_sublist (lines : List String)
    (cur : Option SectionLabel) :
    ((scanAssign lines cur).map Prod.snd) <+ linesContent lines := by
  induction lines generalizing cur with
  | nil => simp [scanAssign, linesContent]
  | cons l rest ih =>
    rw [linesContent_cons]
    by_cases h : pyStrip l = ""
    · rw [if_pos (Or.inl h)]
      simp only [scanAssign, if_pos h]
      exact ih cur
    · simp only [scanAssign, if_neg h]
      cases hH : headerLabel (pyStrip l) with
      | some lbl =>
        rw [if_pos (Or.inr (by simp [isHeader, hH]))]
        exact ih (some lbl)
      | none =>
        have hhd : isHeader (pyStrip l) = false := by simp [isHeader, hH]
        rw [if_neg (by simp [h, hhd])]
        cases cur with
        | none => exact (ih none).cons (pyStrip l)
        | some lbl => exact (ih (some lbl)).cons₂ (pyStrip l)

open List in
theorem assigned_sublist (lbl : SectionLabel)
    (a : List (SectionLabel × String)) :
    assigned lbl a <+ a.map Prod.snd :=
  (List.filter_sublist a).map Prod.snd

theorem assigned_cons (lbl m : SectionLabel) (y : String)
    (rest : List (SectionLabel × String)) :
    assigned lbl ((m, y) :: rest) =
      if m = lbl then y :: assigned lbl rest else assigned lbl rest := by
  by_cases h : m = lbl <;> simp [assigned, List.filter_cons, h]

theorem assigned_count (x : String) (a : List (SectionLabel × String)) :
    (assigned .experience a).count x + (assigned .education a).count x +
      (assigned .skills a).count x + (assigned .achievements a).count x +
      (assigned .certifications a).count x ≤ (a.map Prod.snd).count x := by
  induction a with
  | nil => simp [assigned]
  | cons p rest ih =>
    obtain ⟨m, y⟩ := p
    by_cases hxy : y = x <;>
      cases m <;>
        simp [assigned_cons, List.count_cons, hxy] <;> omega

open List in
theorem assigned_concat_subperm (a : List (SectionLabel × String)) :
    (assigned .experience a ++ assigned .education a ++ assigned .skills a ++
      assigned .achievements a ++ assigned .certifications a) <+~
      a.map Prod.snd := by
  rw [List.subperm_ext_iff]
  intro x _
  have h := assigned_count x a
  simp only [List.count_append]
  omega

/-- The eleven keywords of the `if/elif` chain, in source order. -/
def sectionKeywords : List String :=
  ["experience", "work history", "education", "skills", "expertise",
   "summary", "about", "achievement", "accomplishment", "certification",
   "license"]

/-- A line matches some section keyword (ignoring the length guard). -/
def sectionKeywordHit (line : String) : Bool :=
  sectionKeywords.any (fun k => strContains (pyLower line) k)

theorem startsWithChars_iff (p s : List Char) :
    startsWithChars p s = true ↔ p <+: s := by
  induction p generalizing s with
  | nil => simp [startsWithChars]
  | cons a ps ih =>
    cases s with
    | nil => simp [startsWithChars]
    | cons b t =>
      simp only [startsWithChars, Bool.and_eq_true, decide_eq_true_eq, ih,
        List.cons_prefix_cons]

theorem hasInfixChars_iff (s p : List Char) :
    hasInfixChars s p = true ↔ p <:+: s := by
  induction s with
  | nil => simp [hasInfixChars, List.isEmpty_iff]
  | cons c rest ih =>
    simp only [hasInfixChars, Bool.or_eq_true, startsWithChars_iff, ih,
      List.infix_cons_iff]

theorem strContains_iff (s pat : String) :
    strContains s pat = true ↔ chars pat <:+: chars s := by
  simp [strContains, hasInfixChars_iff]

theorem digitPercentHit_iff (l : List Char) :
    digitPercentHit l = true ↔
      ∃ c : Char, c.isDigit = true ∧ [c, '%'] <:+: l := by
  induction l with
  | nil => simp [digitPercentHit]
  | cons c rest ih =>
    cases rest with
    | nil =>
      constructor
      · intro h
        exact absurd h (by simp [digitPercentHit])
      · rintro ⟨e, _, hin⟩
        have hl := hin.length_le
        simp at hl
    | cons d t =>
      simp only [digitPercentHit, Bool.or_eq_true, Bool.and_eq_true,
        decide_eq_true_eq, ih, List.infix_cons_iff, List.cons_prefix_cons]
      constructor
      · rintro (⟨hc, hd⟩ | ⟨e, he, hin⟩)
        · exact ⟨c, hc, Or.inl ⟨rfl, hd ▸ ⟨rfl, by simp⟩⟩⟩
        · exact ⟨e, he, Or.inr hin⟩
      · rintro ⟨e, he, ⟨he1, he2, _⟩ | hin⟩
        · exact Or.inl ⟨he1 ▸ he, he2.symm⟩
        · exact Or.inr ⟨e, he, hin⟩

theorem dollarDigitHit_iff (l : List Char) :
    dollarDigitHit l = true ↔
      ∃ c : Char, c.isDigit = true ∧ ['$', c] <:+: l := by
  induction l with
  | nil => simp [dollarDigitHit]
  | cons c rest ih =>
    cases rest with
    | nil =>
      constructor
      · intro h
        exact absurd h (by simp [dollarDigitHit])
      · rintro ⟨e, _, hin⟩
        have hl := hin.length_le
        simp at hl
    | cons d t =>
      simp only [dollarDigitHit, Bool.or_eq_true, Bool.and_eq_true,
        decide_eq_true_eq, ih, List.infix_cons_iff, List.cons_prefix_cons]
      constructor
      · rintro (⟨hc, hd⟩ | ⟨e, he, hin⟩)
        · exact ⟨d, hd, Or.inl ⟨hc.symm, rfl, by simp⟩⟩
        · exact ⟨e, he, Or.inr hin⟩
      · rintro ⟨e, he, ⟨he1, he2, _⟩ | hin⟩
        · exact Or.inl ⟨he1.symm, he2 ▸ he⟩
        · exact Or.inr ⟨e, he, hin⟩

theorem headerLabel_keyword (line : String) (h : isHeader line = true) :
    pyLen line < 30 ∧ sectionKeywordHit line = true := by
  simp only [isHeader, headerLabel] at h
  split_ifs at h with h1 h2 h3 h4 h5 h6
  · rw [Bool.and_eq_true, Bool.or_eq_true] at h1
    refine ⟨of_decide_eq_true h1.2, ?_⟩
    simp only [sectionKeywordHit, sectionKeywords, List.any_eq_true]
    rcases h1.1 with hk | hk
    · exact ⟨"experience", by simp, hk⟩
    · exact ⟨"work history", by simp, hk⟩
  · rw [Bool.and_eq_true] at h2
    refine ⟨of_decide_eq_true h2.2, ?_⟩
    simp only [sectionKeywordHit, sectionKeywords, List.any_eq_true]
    exact ⟨"education", by simp, h2.1⟩
  · rw [Bool.and_eq_true, Bool.or_eq_true] at h3
    refine ⟨of_decide_eq_true h3.2, ?_⟩
    simp only [sectionKeywordHit, sectionKeywords, List.any_eq_true]
    rcases h3.1 with hk | hk
    · exact ⟨"skills", by simp, hk⟩
    · exact ⟨"expertise", by simp, hk⟩
  · rw [Bool.and_eq_true, Bool.or_eq_true] at h4
    refine ⟨of_decide_eq_true h4.2, ?_⟩
    simp only [sectionKeywordHit, sectionKeywords, List.any_eq_true]
    rcases h4.1 with hk | hk
    · exact ⟨"summary", by simp, hk⟩
    · exact ⟨"about", by simp, hk⟩
  · rw [Bool.and_eq_true, Bool.or_eq_true] at h5
    refine ⟨of_decide_eq_true h5.2, ?_⟩
    simp only [sectionKeywordHit, sectionKeywords, List.any_eq_true]
    rcases h5.1 with hk | hk
    · exact ⟨"achievement", by simp, hk⟩
    · exact ⟨"accomplishment", by simp, hk⟩
  · rw [Bool.and_eq_true, Bool.or_eq_true] at h6
    refine ⟨of_decide_eq_true h6.2, ?_⟩
    simp only [sectionKeywordHit, sectionKeywords, List.any_eq_true]
    rcases h6.1 with hk | hk
    · exact ⟨"certification", by simp, hk⟩
    · exact ⟨"license", by simp, hk⟩
  · simp at h

theorem headerLabel_long (line : String) (h : 30 ≤ pyLen line) :
    headerLabel line = none := by
  have hd : decide (pyLen line < 30) = false := by
    simp only [decide_eq_false_iff_not]
    omega
  simp [headerLabel, hd]

/-- C5: on the input "Experience\nSoftware Engineer at Acme\nSkills\n
Python, Go\nEducation\nBS CS" the extractor returns
Experience=["Software Engineer at Acme"], Skills=["Python, Go"],
Education=["BS CS"], Summary="" and empty Achievements/Certifications. -/
theorem c5_round_trip :
    extract_profile_sections
      "Experience\nSoftware Engineer at Acme\nSkills\nPython, Go\nEducation\nBS CS" =
      { experience := ["Software Engineer at Acme"], education := ["BS CS"],
        skills := ["Python, Go"], summary := "", achievements := [],
        certifications := [] } := by decide

/-- C8: the core functions are total (they are defined as total Lean
functions over arbitrary strings); the extractor on empty input returns
the all-empty sections dictionary, and the scorer and achievement
extractor on empty entry lists return empty results. -/
theorem c8_total :
    extract_profile_sections "" = initSections ∧
    (∀ target_position : String, analyze_experience [] target_position = []) ∧
    extract_achievements [] = [] :=
  ⟨by decide, fun _ => rfl, rfl⟩

/-- C3: the scorer returns one result per entry among the first three
(result length is min 3 (input length), so an empty input yields an
empty result); positionally, the sequence of returned scores equals the
per-entry formula min (40 + 20 * number of matched keywords of that
entry) 100 mapped over the first three entries, so every returned score
lies between 40 and 100 inclusive. -/
theorem c3_scoreRelevance (experience : List String)
    (target_position : String) :
    (analyze_experience experience target_position).length =
      min 3 experience.length ∧
    (analyze_experience experience target_position).map
        RelevanceResult.relevance =
      (experience.take 3).map (fun e =>
        min (40 + 20 * matchCount (keywordsFor target_position) e) 100) ∧
    ∀ r ∈ analyze_experience experience target_position,
      40 ≤ r.relevance ∧ r.relevance ≤ 100 := by
  refine ⟨by simp [analyze_experience], ?_, ?_⟩
  · rw [analyze_experience, List.map_map]
    refine List.map_congr_left (fun e _ => ?_)
    simp only [Function.comp_apply, analyzeOne]
    rw [Nat.mul_comm, Nat.add_comm]
  · intro r hr
    simp only [analyze_experience, List.mem_map] at hr
    obtain ⟨e, _, hre⟩ := hr
    constructor
    · rw [← hre]
      simp only [analyzeOne]
      exact Nat.le_min.mpr ⟨Nat.le_add_left 40 _, by omega⟩
    · rw [← hre]
      simp only [analyzeOne]
      exact Nat.min_le_right _ _

/-- C3 witness: the bounds part applied to the concrete result of one
entry and target. -/
theorem c3_witness :
    40 ≤ (analyzeOne (keywordsFor "Developer")
        "Software development work").relevance ∧
    (analyzeOne (keywordsFor "Developer")
        "Software development work").relevance ≤ 100 :=
  (c3_scoreRelevance ["Software development work"] "Developer").2.2
    (analyzeOne (keywordsFor "Developer") "Software development work")
    (by decide)

/-- C7: the achievement extractor returns exactly the entries whose
lower-cased text contains a digit followed by a percent sign, a dollar
sign followed by a digit, or one of the eight indicator verbs, in
original order, truncated to three; the entry "increased revenue by 20%"
qualifies, and entries with no indicator yield the empty result. -/
theorem c7_extractAchievements :
    (∀ experience : List String,
      extract_achievements experience =
        (experience.filter achievementHit).take 3) ∧
    (∀ e : String, achievementHit e = true ↔
      (∃ c : Char, c.isDigit = true ∧ [c, '%'] <:+: chars (pyLower e)) ∨
      (∃ c : Char, c.isDigit = true ∧ ['$', c] <:+: chars (pyLower e)) ∨
      (∃ v ∈ achievementVerbs, chars v <:+: chars (pyLower e))) ∧
    achievementHit "increased revenue by 20%" = true ∧
    (∀ experience : List String,
      (∀ e ∈ experience, achievementHit e = false) →
      extract_achievements experience = []) ∧
    extract_achievements ["nothing special here", "regular tasks"] = [] := by
  refine ⟨fun _ => rfl, ?_, by decide, ?_, by decide⟩
  · intro e
    simp only [achievementHit, Bool.or_eq_true, digitPercentHit_iff,
      dollarDigitHit_iff, List.any_eq_true, strContains_iff]
    exact or_assoc
  · intro experience h
    simp only [extract_achievements]
    rw [List.filter_eq_nil_iff.mpr (by simpa using h)]
    rfl

/-- C7 witness: instantiated on a list with no indicator patterns. -/
theorem c7_witness : extract_achievements ["wrote some notes"] = [] :=
  c7_extractAchievements.2.2.2.1 ["wrote some notes"] (by decide)

/-- C10: the verb indicators are matched unanchored inside the
lower-cased entry, so any entry containing "led" as a substring of any
word (for example inside "Installed" or "Handled") qualifies as an
achievement. -/
theorem c10_unanchored_verbs :
    (∀ e : String, strContains (pyLower e) "led" = true →
      achievementHit e = true) ∧
    extract_achievements
      ["Installed the server racks", "Handled inbound tickets",
       "Wrote meeting notes"] =
      ["Installed the server racks", "Handled inbound tickets"] := by
  constructor
  · intro e h
    simp [achievementHit, achievementVerbs, h]
  · decide

/-- C10 witness: the general part applied to a concrete entry whose only
occurrence of "led" is inside the word "Installed". -/
theorem c10_witness : achievementHit "Installed the server racks" = true :=
  c10_unanchored_verbs.1 "Installed the server racks" (by decide)

theorem headerLabel_experience (line : String) (hlen : pyLen line < 30)
    (hkw : (strContains (pyLower line) "experience" ||
      strContains (pyLower line) "work history") = true) :
    headerLabel line = some .experience := by
  simp [headerLabel, hkw, hlen]

/-- C4: a line is a header only if it matches a keyword and its stripped
length is under 30; a non-empty stripped line of 30 or more characters is
appended to the active section or dropped; a stripped line under 30
characters containing "experience" or "work history" always selects the
Experience section and is never stored. -/
theorem c4_header_length_guard :
    (∀ line : String, isHeader line = true →
      pyLen line < 30 ∧ sectionKeywordHit line = true) ∧
    (∀ l : String, ∀ rest : List String, ∀ cur : Option SectionLabel,
      ∀ s : Sections, pyStrip l ≠ "" → 30 ≤ pyLen (pyStrip l) →
      scanLines (l :: rest) cur s =
        scanLines rest cur
          (match cur with
            | some lbl => storeLine s lbl (pyStrip l)
            | none => s)) ∧
    (∀ line : String, pyLen line < 30 →
      (strContains (pyLower line) "experience" ||
        strContains (pyLower line) "work history") = true →
      headerLabel line = some .experience) ∧
    (∀ l : String, ∀ rest : List String, ∀ cur : Option SectionLabel,
      ∀ s : Sections, pyStrip l ≠ "" → pyLen (pyStrip l) < 30 →
      (strContains (pyLower (pyStrip l)) "experience" ||
        strContains (pyLower (pyStrip l)) "work history") = true →
      scanLines (l :: rest) cur s = scanLines rest (some .experience) s) := by
  refine ⟨headerLabel_keyword, ?_, headerLabel_experience, ?_⟩
  · intro l rest cur s h hlen
    simp only [scanLines, if_neg h, headerLabel_long _ hlen]
    cases cur <;> rfl
  · intro l rest cur s h hlen hkw
    simp only [scanLines, if_neg h, headerLabel_experience _ hlen hkw]

/-- C4 witness: the short header line "Experience" switches the scan to
the Experience section without being stored. -/
theorem c4_witness :
    scanLines ["Experience", "built stuff"] none initSections =
      scanLines ["built stuff"] (some .experience) initSections :=
  c4_header_length_guard.2.2.2 "Experience" ["built stuff"] none initSections
    (by decide) (by decide) (by decide)

/-- C1 counterexample: the code's keyword sets contain none of
"technologies", "overview", "award", "qualification", so the short lines
"Technologies", "Overview", "Awards", "Qualifications" select no section,
and a following line is not stored under Skills. -/
theorem c1_counterexample :
    headerLabel "Technologies" = none ∧ headerLabel "Overview" = none ∧
    headerLabel "Awards" = none ∧ headerLabel "Qualifications" = none ∧
    (extract_profile_sections "Technologies\nPython").skills = [] := by
  decide

/-- C1 amended: the keyword chain is tested in the fixed priority order
Experience/"work history", then "education", then "skills"/"expertise",
then "summary"/"about", then "achievement"/"accomplishment", then
"certification"/"license", the first matching set winning; a line
matching no keyword selects no section, and in particular short lines
containing only "technologies", "overview", "award" or "qualification"
select none. -/
theorem c1_priority :
    (∀ line : String, pyLen line < 30 →
      (strContains (pyLower line) "experience" ||
        strContains (pyLower line) "work history") = true →
      headerLabel line = some .experience) ∧
    (∀ line : String, pyLen line < 30 →
      (strContains (pyLower line) "experience" ||
        strContains (pyLower line) "work history") = false →
      strContains (pyLower line) "education" = true →
      headerLabel line = some .education) ∧
    (∀ line : String, pyLen line < 30 →
      (strContains (pyLower line) "experience" ||
        strContains (pyLower line) "work history") = false →
      strContains (pyLower line) "education" = false →
      (strContains (pyLower line) "skills" ||
        strContains (pyLower line) "expertise") = true →
      headerLabel line = some .skills) ∧
    (∀ line : String, pyLen line < 30 →
      (strContains (pyLower line) "experience" ||
        strContains (pyLower line) "work history") = false →
      strContains (pyLower line) "education" = false →
      (strContains (pyLower line) "skills" ||
        strContains (pyLower line) "expertise") = false →
      (strContains (pyLower line) "summary" ||
        strContains (pyLower line) "about") = true →
      headerLabel line = some .summary) ∧
    (∀ line : String, pyLen line < 30 →
      (strContains (pyLower line) "experience" ||
        strContains (pyLower line) "work history") = false →
      strContains (pyLower line) "education" = false →
      (strContains (pyLower line) "skills" ||
        strContains (pyLower line) "expertise") = false →
      (strContains (pyLower line) "summary" ||
        strContains (pyLower line) "about") = false →
      (strContains (pyLower line) "achievement" ||
        strContains (pyLower line) "accomplishment") = true →
      headerLabel line = some .achievements) ∧
    (∀ line : String, pyLen line < 30 →
      (strContains (pyLower line) "experience" ||
        strContains (pyLower line) "work history") = false →
      strContains (pyLower line) "education" = false →
      (strContains (pyLower line) "skills" ||
        strContains (pyLower line) "expertise") = false →
      (strContains (pyLower line) "summary" ||
        strContains (pyLower line) "about") = false →
      (strContains (pyLower line) "achievement" ||
        strContains (pyLower line) "accomplishment") = false →
      (strContains (pyLower line) "certification" ||
        strContains (pyLower line) "license") = true →
      headerLabel line = some .certifications) ∧
    (∀ line : String, sectionKeywordHit line = false →
      headerLabel line = none) ∧
    headerLabel "Technologies" = none ∧ headerLabel "Overview" = none ∧
    headerLabel "Awards" = none ∧ headerLabel "Qualifications" = none := by
  refine ⟨headerLabel_experience, ?_, ?_, ?_, ?_, ?_, ?_,
    by decide, by decide, by decide, by decide⟩
  · intro line hlen h1 h2
    simp [headerLabel, h1, h2, hlen]
  · intro line hlen h1 h2 h3
    simp [headerLabel, h1, h2, h3, hlen]
  · intro line hlen h1 h2 h3 h4
    simp [headerLabel, h1, h2, h3, h4, hlen]
  · intro line hlen h1 h2 h3 h4 h5
    simp [headerLabel, h1, h2, h3, h4, h5, hlen]
  · intro line hlen h1 h2 h3 h4 h5 h6
    simp [headerLabel, h1, h2, h3, h4, h5, h6, hlen]
  · intro line h
    simp only [sectionKeywordHit, sectionKeywords] at h
    simp only [List.any_cons, List.any_nil, Bool.or_eq_false_iff] at h
    obtain ⟨h1, h2, h3, h4, h5, h6, h7, h8, h9, h10, ⟨h11, -⟩⟩ := h
    simp [headerLabel, h1, h2, h3, h4, h5, h6, h7, h8, h9, h10, h11]

/-- C1 witness: a short line containing "education" but no
experience keyword selects the Education section. -/
theorem c1_witness : headerLabel "Education" = some .education :=
  c1_priority.2.1 "Education" (by decide) (by decide) (by decide)

/-- C2 counterexample: when sections interleave in the input, the
concatenation of the stored sections (in the dictionary's section order)
is not a subsequence of the non-empty stripped non-header lines: with
Experience, Skills, then Experience again, the concatenation reorders
the skills line past the second experience line. -/
theorem c2_counterexample :
    ¬ List.Sublist
      ((extract_profile_sections
          "Experience\nAlpha beta gamma line\nSkills\nPython things line\nExperience\nOmega sigma line").experience ++
        (extract_profile_sections
          "Experience\nAlpha beta gamma line\nSkills\nPython things line\nExperience\nOmega sigma line").education ++
        (extract_profile_sections
          "Experience\nAlpha beta gamma line\nSkills\nPython things line\nExperience\nOmega sigma line").skills ++
        (extract_profile_sections
          "Experience\nAlpha beta gamma line\nSkills\nPython things line\nExperience\nOmega sigma line").achievements ++
        (extract_profile_sections
          "Experience\nAlpha beta gamma line\nSkills\nPython things line\nExperience\nOmega sigma line").certifications)
      (contentLines
        "Experience\nAlpha beta gamma line\nSkills\nPython things line\nExperience\nOmega sigma line") := by
  decide

/-- C2 amended: every list section of the extractor output is a
subsequence of the non-empty stripped non-header lines (so stored lines
keep input order within each section, header lines are never stored, and
lines before the first header are dropped), and the concatenation of all
list sections is a permutation of a subsequence of those lines (each
line occurrence is stored in at most one section); the concatenation in
a fixed section order need not itself be a subsequence when sections
interleave. -/
theorem c2_invariant (t : String) :
    List.Sublist (extract_profile_sections t).experience (contentLines t) ∧
    List.Sublist (extract_profile_sections t).education (contentLines t) ∧
    List.Sublist (extract_profile_sections t).skills (contentLines t) ∧
    List.Sublist (extract_profile_sections t).achievements (contentLines t) ∧
    List.Sublist (extract_profile_sections t).certifications (contentLines t) ∧
    List.Subperm
      ((extract_profile_sections t).experience ++
        (extract_profile_sections t).education ++
        (extract_profile_sections t).skills ++
        (extract_profile_sections t).achievements ++
        (extract_profile_sections t).certifications)
      (contentLines t) := by
  have hA := scanAssign_snd_sublist (splitNL t) none
  have heq := scanLines_eq (splitNL t) none initSections
  have hexp : (extract_profile_sections t).experience =
      assigned .experience (scanAssign (splitNL t) none) := by
    rw [extract_profile_sections, heq]
    simp [initSections]
  have hedu : (extract_profile_sections t).education =
      assigned .education (scanAssign (splitNL t) none) := by
    rw [extract_profile_sections, heq]
    simp [initSections]
  have hsk : (extract_profile_sections t).skills =
      assigned .skills (scanAssign (splitNL t) none) := by
    rw [extract_profile_sections, heq]
    simp [initSections]
  have hach : (extract_profile_sections t).achievements =
      assigned .achievements (scanAssign (splitNL t) none) := by
    rw [extract_profile_sections, heq]
    simp [initSections]
  have hcert : (extract_profile_sections t).certifications =
      assigned .certifications (scanAssign (splitNL t) none) := by
    rw [extract_profile_sections, heq]
    simp [initSections]
  refine ⟨?_, ?_, ?_, ?_, ?_, ?_⟩
  · rw [hexp]
    exact (assigned_sublist _ _).trans hA
  · rw [hedu]
    exact (assigned_sublist _ _).trans hA
  · rw [hsk]
    exact (assigned_sublist _ _).trans hA
  · rw [hach]
    exact (assigned_sublist _ _).trans hA
  · rw [hcert]
    exact (assigned_sublist _ _).trans hA
  · rw [hexp, hedu, hsk, hach, hcert]
    exact (assigned_concat_subperm _).trans hA.subperm

/-- C6: the keyword profile is selected by the first of "developer",
"manager", "analyst" occurring in the lower-cased target position, with
the empty keyword set when none occurs; and each analyzed entry's
matching points are the ". "-separated candidate points containing at
least one selected keyword, falling back to the whole entry when no
point qualifies. -/
theorem c6_keyword_profile :
    (∀ tp : String, strContains (pyLower tp) "developer" = true →
      keywordsFor tp =
        ["coding", "programming", "software", "development", "engineering"]) ∧
    (∀ tp : String, strContains (pyLower tp) "developer" = false →
      strContains (pyLower tp) "manager" = true →
      keywordsFor tp = ["lead", "managing", "leadership", "team", "strategy"]) ∧
    (∀ tp : String, strContains (pyLower tp) "developer" = false →
      strContains (pyLower tp) "manager" = false →
      strContains (pyLower tp) "analyst" = true →
      keywordsFor tp = ["analysis", "data", "research", "reporting", "metrics"]) ∧
    (∀ tp : String, strContains (pyLower tp) "developer" = false →
      strContains (pyLower tp) "manager" = false →
      strContains (pyLower tp) "analyst" = false → keywordsFor tp = []) ∧
    (∀ experience : List String, ∀ tp : String,
      analyze_experience experience tp =
        (experience.take 3).map (fun exp =>
          { relevance := min (matchCount (keywordsFor tp) exp * 20 + 40) 100
            matching_points :=
              if ((splitPoints exp).filter (fun point =>
                  (keywordsFor tp).any
                    (fun k => strContains (pyLower point) k))) = []
              then [exp]
              else (splitPoints exp).filter (fun point =>
                (keywordsFor tp).any
                  (fun k => strContains (pyLower point) k)) })) := by
  refine ⟨?_, ?_, ?_, ?_, ?_⟩
  · intro tp h1
    simp [keywordsFor, h1]
  · intro tp h1 h2
    simp [keywordsFor, h1, h2]
  · intro tp h1 h2 h3
    simp [keywordsFor, h1, h2, h3]
  · intro tp h1 h2 h3
    simp [keywordsFor, h1, h2, h3]
  · intro experience tp
    rfl

/-- C6 witness: the target "Senior Developer" selects the developer
keyword set. -/
theorem c6_witness :
    keywordsFor "Senior Developer" =
      ["coding", "programming", "software", "development", "engineering"] :=
  c6_keyword_profile.1 "Senior Developer" (by decide)

/-- C9: when the lower-cased target contains none of "developer",
"manager", "analyst", the keyword set is empty, so every analyzed entry
(up to the first three) scores exactly 40 and its matching points are
the singleton containing the whole entry. -/
theorem c9_general_fallback (tp : String) (experience : List String)
    (h1 : strContains (pyLower tp) "developer" = false)
    (h2 : strContains (pyLower tp) "manager" = false)
    (h3 : strContains (pyLower tp) "analyst" = false) :
    analyze_experience experience tp =
      (experience.take 3).map
        (fun e => { relevance := 40, matching_points := [e] }) := by
  have hk : keywordsFor tp = [] := by simp [keywordsFor, h1, h2, h3]
  unfold analyze_experience
  rw [hk]
  refine List.map_congr_left (fun e _ => ?_)
  simp [analyzeOne, matchCount, Nat.min_def]

/-- C9 witness: a non-matching target and one entry. -/
theorem c9_witness :
    analyze_experience ["Taught algebra to teens"] "Teacher" =
      ((["Taught algebra to teens"] : List String).take 3).map
        (fun e => { relevance := 40, matching_points := [e] }) :=
  c9_general_fallback "Teacher" ["Taught algebra to teens"]
    (by decide) (by decide) (by decide)
